import Mathlib

/-!
# Verification of the AST-based package usage detector

Shallow embedding of `src/server/services/astAnalysis.ts` from the
DependencyShield repository: the data model (`PackageUsageRecord`,
`CodeMetrics`, `ASTAnalysisResult`), the package-name resolver
(`extractPackageName`), the identifier-to-package mapper
(`findPackageFromIdentifier`), the per-file extractors
(`analyzeTypeScriptFile`, `analyzeJavaScriptFile`), the risk scorer
(`calculateMigrationRisk`) and the batch driver (`performASTAnalysis`).

Parsing itself is performed by third-party libraries (ts-morph, @babel/parser);
a source file is therefore embedded as its name together with the parse
result the library returned for it: either a traversable sequence of the
syntax-tree events the extractor reacts to (import declarations, member-access
call expressions, function and class declarations, in traversal order), or a
parse failure.  Diagnostics printed with `console.error` are modelled as a
returned list of strings.  JavaScript objects used as dictionaries are
modelled as insertion-ordered association lists; JavaScript string primitives
(`split('/')`, `startsWith`, `endsWith`, `toLowerCase`,
`replace(/[-_]/g, '')`) are modelled by executable functions on character
lists with the same semantics.
-/

namespace DependencyShield

/-- JS `s.startsWith(c)` for a single-character prefix. -/
def jsStartsWith (s : String) (c : Char) : Bool :=
  match s.data with
  | [] => false
  | x :: _ => x == c

/-- JS `s.split(c)` on a single-character separator, on character lists.
`[]` input yields `[[]]`, matching `"".split('/') = [""]`. -/
def splitOnCharList (c : Char) : List Char → List (List Char)
  | [] => [[]]
  | x :: xs =>
    let r := splitOnCharList c xs
    if x == c then [] :: r
    else
      match r with
      | [] => [[x]]
      | h :: t => (x :: h) :: t

/-- JS `s.split(c)` on a single-character separator. -/
def jsSplit (s : String) (c : Char) : List String :=
  (splitOnCharList c s.data).map String.mk

/-- JS `s.endsWith(suffix)`. -/
def jsEndsWith (s suffix : String) : Bool :=
  suffix.data.isSuffixOf s.data

/-- JS `s.toLowerCase()` (ASCII, which is all the analysis compares). -/
def jsToLower (s : String) : String :=
  String.mk (s.data.map Char.toLower)

/-- JS `s.replace(/[-_]/g, '')`. -/
def removeSeparators (s : String) : String :=
  String.mk (s.data.filter (fun ch => !(ch == '-' || ch == '_')))

/-- `migrationRisk` enumeration from `ASTAnalysisResult`. -/
inductive Risk where
  | low
  | medium
  | high
deriving DecidableEq, Repr

/-- One entry of a record's `fileUsage` array. -/
structure FileUsage where
  fileName : String
  importStatements : List String
  usageExamples : List String
  lineNumbers : List Nat
deriving DecidableEq, Repr

/-- One per-package usage record of `ASTAnalysisResult.packageUsage`. -/
structure PackageUsageRecord where
  importNodes : List String
  usageNodes : List String
  exportedSymbols : List String
  complexityScore : Nat
  migrationRisk : Risk
  fileUsage : List FileUsage
deriving DecidableEq, Repr

/-- The `codeMetrics` accumulators of `ASTAnalysisResult`. -/
structure CodeMetrics where
  totalFunctions : Nat
  totalClasses : Nat
  totalImports : Nat
  cyclomaticComplexity : Nat
deriving DecidableEq, Repr

/-- The `dependencies` argument: declared package name to version range,
as an insertion-ordered dictionary. -/
abbrev Deps := List (String × String)

/-- The `packageUsage` dictionary. -/
abbrev PkgMap := List (String × PackageUsageRecord)

/-- Dictionary read `m[k]`: value at the first matching key. -/
def lookupStr {α : Type} (m : List (String × α)) (k : String) : Option α :=
  (m.find? (fun p => p.1 == k)).map (fun p => p.2)

/-- Truthiness of `dependencies[k]` in JS: the key is present and its value
is not the empty string (the only falsy string). -/
def depTruthy (deps : Deps) (k : String) : Bool :=
  match lookupStr deps k with
  | some v => v != ""
  | none => false

/-- `extractPackageName` from astAnalysis.ts: module specifier to package
name.  Paths starting with `.` or `/` are local (null); scoped `@...`
specifiers keep their first two `/`-segments; everything else keeps the
first segment.  (`jsSplit` never returns `[]`, so the `[]` branches are
unreachable.) -/
def extractPackageName (importPath : String) : Option String :=
  if jsStartsWith importPath '.' || jsStartsWith importPath '/' then none
  else if jsStartsWith importPath '@' then
    match jsSplit importPath '/' with
    | p0 :: p1 :: _ => some (p0 ++ "/" ++ p1)
    | [p0] => some p0
    | [] => none
  else
    match jsSplit importPath '/' with
    | p0 :: _ => some p0
    | [] => none

/-- The fixed `commonMappings` alias table of `findPackageFromIdentifier`. -/
def commonMappings : List (String × String) :=
  [("_", "lodash"), ("$", "jquery"), ("React", "react"),
   ("Vue", "vue"), ("axios", "axios"), ("moment", "moment")]

/-- Fuzzy fallback of `findPackageFromIdentifier`: first declared name whose
lowercase form, or lowercase form with `-`/`_` removed, matches the
identifier's; `matchingDep || null` makes an empty-string match fall through
to null. -/
def fuzzyMatch (identifier : String) (dependencies : Deps) : Option String :=
  match (dependencies.map Prod.fst).find? (fun dep =>
      jsToLower dep == jsToLower identifier ||
      jsToLower (removeSeparators dep) == jsToLower (removeSeparators identifier)) with
  | some d => if d == "" then none else some d
  | none => none

/-- `findPackageFromIdentifier` from astAnalysis.ts: alias table first (only
when the aliased package is a truthy entry of `dependencies`), then the
fuzzy match against declared names. -/
def findPackageFromIdentifier (identifier : String) (dependencies : Deps) : Option String :=
  match lookupStr commonMappings identifier with
  | some mapped =>
    if depTruthy dependencies mapped then some mapped
    else fuzzyMatch identifier dependencies
  | none => fuzzyMatch identifier dependencies

/-- Receiver expression of a member-access call. -/
inductive Expr where
  | ident (name : String)
  | member (obj : Expr) (prop : String)
  | otherExpr (text : String)
deriving DecidableEq, Repr

/-- `.getText()` of a receiver expression (used by the TypeScript path). -/
def exprText : Expr → String
  | .ident n => n
  | .member o p => exprText o ++ "." ++ p
  | .otherExpr t => t

/-- `getObjectName` from astAnalysis.ts (used by the JavaScript path): walk
chained member accesses down to the base identifier, `""` otherwise. -/
def getObjectName : Expr → String
  | .ident n => n
  | .member o _ => getObjectName o
  | .otherExpr _ => ""

/-- Syntax-tree events the extractor reacts to, in traversal order: the
declarations of imports (module specifier, full text, start line, named
binding names), call expressions whose callee is a member access (receiver,
method name, full call text, start line), function declarations and class
declarations. -/
inductive AstNode where
  | importDecl (specifier text : String) (line : Nat) (named : List String)
  | callMember (receiver : Expr) (method text : String) (line : Nat)
  | funcDecl
  | classDecl
deriving DecidableEq, Repr

/-- Result of handing one file to its parser (ts-morph or @babel/parser):
the event sequence of its tree, or the thrown parse error's message. -/
inductive ParseResult where
  | ok (ast : List AstNode)
  | failed (message : String)
deriving DecidableEq, Repr

/-- One element of the `sourceFiles` argument, together with what the
grammar selected by its extension produces for it. -/
structure SourceFile where
  name : String
  parsed : ParseResult
deriving DecidableEq, Repr

/-- The record every tracked dependency starts from. -/
def emptyRecord : PackageUsageRecord :=
  { importNodes := [], usageNodes := [], exportedSymbols := [],
    complexityScore := 0, migrationRisk := .low, fileUsage := [] }

/-- Mutation `packageUsage[k] = f(packageUsage[k])`, initializing an empty
record first when the key is absent (the `if (!packageUsage[...])` guards of
the JavaScript path; every reachable key is pre-initialized anyway). -/
def updatePkg (m : PkgMap) (k : String) (f : PackageUsageRecord → PackageUsageRecord) : PkgMap :=
  if (m.find? (fun p => p.1 == k)).isSome then
    m.map (fun p => if p.1 == k then (p.1, f p.2) else p)
  else
    m ++ [(k, f emptyRecord)]

/-- Mutation guarded by `if (packageUsage[k])`: update the entry when the key
is present, do nothing otherwise. -/
def updatePkgIfPresent (m : PkgMap) (k : String) (f : PackageUsageRecord → PackageUsageRecord) : PkgMap :=
  m.map (fun p => if p.1 == k then (p.1, f p.2) else p)

/-- Assignment `m[k] = r`. -/
def setPkg (m : PkgMap) (k : String) (r : PackageUsageRecord) : PkgMap :=
  if (m.find? (fun p => p.1 == k)).isSome then
    m.map (fun p => if p.1 == k then (p.1, r) else p)
  else
    m ++ [(k, r)]

/-- One entry of a per-file `fileUsageTracker`. -/
structure TrackEntry where
  importStatements : List String
  usageExamples : List String
  lineNumbers : List Nat
deriving DecidableEq, Repr

def emptyTrack : TrackEntry :=
  { importStatements := [], usageExamples := [], lineNumbers := [] }

/-- A per-file `fileUsageTracker` dictionary. -/
abbrev Tracker := List (String × TrackEntry)

/-- Tracker mutation with its init-if-absent guard. -/
def updateTrack (tr : Tracker) (k : String) (f : TrackEntry → TrackEntry) : Tracker :=
  if (tr.find? (fun p => p.1 == k)).isSome then
    tr.map (fun p => if p.1 == k then (p.1, f p.2) else p)
  else
    tr ++ [(k, f emptyTrack)]

/-- Record mutations of an import site: push the import text, push every
named-import binding name onto `exportedSymbols` (no duplicate check). -/
def recordImport (text : String) (named : List String) (r : PackageUsageRecord) : PackageUsageRecord :=
  { r with
    importNodes := r.importNodes ++ [text],
    exportedSymbols := r.exportedSymbols ++ named }

/-- Record mutations of a member-call site: push the call text, increment
`complexityScore` by 1, add the method name only when not already present. -/
def recordCall (text method : String) (r : PackageUsageRecord) : PackageUsageRecord :=
  { r with
    usageNodes := r.usageNodes ++ [text],
    complexityScore := r.complexityScore + 1,
    exportedSymbols :=
      if r.exportedSymbols.contains method then r.exportedSymbols
      else r.exportedSymbols ++ [method] }

/-- The mutable state shared across the batch: the `packageUsage` dictionary
and the `codeMetrics` accumulators. -/
structure AnalysisState where
  packageUsage : PkgMap
  codeMetrics : CodeMetrics
deriving DecidableEq, Repr

/-- `sourceFile.getFunctions().forEach(...)` count. -/
def countFunctions (ast : List AstNode) : Nat :=
  (ast.filter (fun n => n matches .funcDecl)).length

/-- `sourceFile.getClasses().forEach(...)` count. -/
def countClasses (ast : List AstNode) : Nat :=
  (ast.filter (fun n => n matches .classDecl)).length

/-- TypeScript path, import loop body: bump `totalImports`, resolve the
specifier, and when `packageName && dependencies[packageName]` holds record
the import text, the named bindings, and the tracker entry. -/
def tsImportStep (deps : Deps) (s : AnalysisState × Tracker) (n : AstNode) :
    AnalysisState × Tracker :=
  match n with
  | .importDecl specifier text line named =>
    let st := { s.1 with codeMetrics :=
      { s.1.codeMetrics with totalImports := s.1.codeMetrics.totalImports + 1 } }
    match extractPackageName specifier with
    | some pkg =>
      if pkg != "" && depTruthy deps pkg then
        ({ st with packageUsage := updatePkg st.packageUsage pkg (recordImport text named) },
         updateTrack s.2 pkg (fun e =>
           { e with importStatements := e.importStatements ++ [text],
                    lineNumbers := e.lineNumbers ++ [line] }))
      else (st, s.2)
    | none => (st, s.2)
  | _ => s

/-- TypeScript path, `forEachDescendant` body: for a call expression whose
callee is a property access, resolve the receiver's full text through
`findPackageFromIdentifier` and record usage on success. -/
def tsCallStep (deps : Deps) (s : AnalysisState × Tracker) (n : AstNode) :
    AnalysisState × Tracker :=
  match n with
  | .callMember recv method text line =>
    match findPackageFromIdentifier (exprText recv) deps with
    | some pkg =>
      ({ s.1 with packageUsage := updatePkg s.1.packageUsage pkg (recordCall text method) },
       updateTrack s.2 pkg (fun e =>
         { e with usageExamples := e.usageExamples ++ [text],
                  lineNumbers := e.lineNumbers ++ [line] }))
    | none => s
  | _ => s

/-- Flush a file's tracker into `fileUsage`, guarded by
`if (packageUsage[packageName])`, capping usage examples at 10. -/
def flushFileUsage (fileName : String) (tr : Tracker) (m : PkgMap) : PkgMap :=
  tr.foldl (fun m p =>
    updatePkgIfPresent m p.1 (fun r =>
      { r with fileUsage := r.fileUsage ++
        [{ fileName := fileName, importStatements := p.2.importStatements,
           usageExamples := p.2.usageExamples.take 10,
           lineNumbers := p.2.lineNumbers }] })) m

/-- `analyzeTypeScriptFile`: count functions and classes, process all import
declarations, then all member-access calls, then flush the tracker. -/
def analyzeTypeScriptFile (deps : Deps) (fileName : String) (ast : List AstNode)
    (st : AnalysisState) : AnalysisState :=
  let st := { st with codeMetrics :=
    { st.codeMetrics with
      totalFunctions := st.codeMetrics.totalFunctions + countFunctions ast,
      totalClasses := st.codeMetrics.totalClasses + countClasses ast } }
  let s := ast.foldl (tsImportStep deps) (st, ([] : Tracker))
  let s := ast.foldl (tsCallStep deps) s
  { s.1 with packageUsage := flushFileUsage fileName s.2 s.1.packageUsage }

/-- The JavaScript path's redundant re-initialization loop over
`Object.keys(dependencies)`. -/
def jsInitDeps (deps : Deps) (m : PkgMap) : PkgMap :=
  deps.foldl (fun m p =>
    if (m.find? (fun q => q.1 == p.1)).isSome then m
    else m ++ [(p.1, emptyRecord)]) m

/-- JavaScript path, one babel-traverse visitor dispatch. -/
def jsStep (deps : Deps) (s : AnalysisState × Tracker) (n : AstNode) :
    AnalysisState × Tracker :=
  match n with
  | .importDecl specifier text line named =>
    let st := { s.1 with codeMetrics :=
      { s.1.codeMetrics with totalImports := s.1.codeMetrics.totalImports + 1 } }
    match extractPackageName specifier with
    | some pkg =>
      if pkg != "" && depTruthy deps pkg then
        ({ st with packageUsage := updatePkg st.packageUsage pkg (recordImport text named) },
         updateTrack s.2 pkg (fun e =>
           { e with importStatements := e.importStatements ++ [text],
                    lineNumbers := e.lineNumbers ++ [line] }))
      else (st, s.2)
    | none => (st, s.2)
  | .funcDecl =>
    ({ s.1 with codeMetrics :=
      { s.1.codeMetrics with totalFunctions := s.1.codeMetrics.totalFunctions + 1 } }, s.2)
  | .classDecl =>
    ({ s.1 with codeMetrics :=
      { s.1.codeMetrics with totalClasses := s.1.codeMetrics.totalClasses + 1 } }, s.2)
  | .callMember recv method text line =>
    match findPackageFromIdentifier (getObjectName recv) deps with
    | some pkg =>
      ({ s.1 with packageUsage := updatePkg s.1.packageUsage pkg (recordCall text method) },
       updateTrack s.2 pkg (fun e =>
         { e with usageExamples := e.usageExamples ++ [text],
                  lineNumbers := e.lineNumbers ++ [line] }))
    | none => s

/-- `analyzeJavaScriptFile`: re-initialize tracked dependencies, traverse the
tree, then flush the function-level `fileUsageTracker` — which is the outer
declaration, never written, because the tracker the visitors populate is a
second `const` of the same name scoped to the `try` block; so JavaScript
files append no `fileUsage` entries. -/
def analyzeJavaScriptFile (deps : Deps) (file : SourceFile) (ast : List AstNode)
    (st : AnalysisState) : AnalysisState :=
  let st := { st with packageUsage := jsInitDeps deps st.packageUsage }
  let s := ast.foldl (jsStep deps) (st, ([] : Tracker))
  { s.1 with packageUsage := flushFileUsage file.name ([] : Tracker) s.1.packageUsage }

/-- `file.name.endsWith('.ts') || file.name.endsWith('.tsx')`. -/
def isTsFile (name : String) : Bool :=
  jsEndsWith name ".ts" || jsEndsWith name ".tsx"

/-- The `console.error` message emitted for a file whose parse threw:
the outer catch for the TypeScript path, the inner catch for the
JavaScript path. -/
def failMessage (f : SourceFile) (e : String) : String :=
  if isTsFile f.name then "Failed to analyze " ++ f.name ++ ": " ++ e
  else "Error parsing JavaScript file " ++ f.name ++ ": " ++ e

/-- Process one file of the batch: dispatch on extension, catch a parse
failure as a diagnostic while leaving the state untouched. -/
def analyzeFile (deps : Deps) (st : AnalysisState) (f : SourceFile) :
    AnalysisState × Option String :=
  match f.parsed with
  | .ok ast =>
    if isTsFile f.name then (analyzeTypeScriptFile deps f.name ast st, none)
    else (analyzeJavaScriptFile deps f ast st, none)
  | .failed e => (st, some (failMessage f e))

/-- The diagnostic a file contributes, which depends on the file alone. -/
def fileDiag (f : SourceFile) : Option String :=
  match f.parsed with
  | .ok _ => none
  | .failed e => some (failMessage f e)

/-- `Object.keys(dependencies).forEach(dep => packageUsage[dep] = empty)`. -/
def initPackageUsage (deps : Deps) : PkgMap :=
  deps.foldl (fun m p => setPkg m p.1 emptyRecord) []

def initialMetrics : CodeMetrics :=
  { totalFunctions := 0, totalClasses := 0, totalImports := 0, cyclomaticComplexity := 0 }

def initialState (deps : Deps) : AnalysisState :=
  { packageUsage := initPackageUsage deps, codeMetrics := initialMetrics }

/-- The per-file loop of `performASTAnalysis`, accumulating the state and the
`console.error` diagnostics. -/
def analyzeAll (deps : Deps) (files : List SourceFile) : AnalysisState × List String :=
  files.foldl (fun acc f =>
    let r := analyzeFile deps acc.1 f
    (r.1, acc.2 ++ r.2.toList)) (initialState deps, [])

/-- The numeric risk of `calculateMigrationRisk`:
`usageNodes.length * 1 + exportedSymbols.length * 2 + complexityScore * 0.5`. -/
def riskValue (usage : PackageUsageRecord) : ℚ :=
  (usage.usageNodes.length : ℚ) * 1 + (usage.exportedSymbols.length : ℚ) * 2 +
    (usage.complexityScore : ℚ) * (1 / 2)

/-- `calculateMigrationRisk` from astAnalysis.ts. -/
def calculateMigrationRisk (usage : PackageUsageRecord) : Risk :=
  if riskValue usage ≤ 5 then .low
  else if riskValue usage ≤ 15 then .medium
  else .high

/-- The final pass: `usage.migrationRisk = calculateMigrationRisk(usage)`
for every tracked package. -/
def applyRisk (m : PkgMap) : PkgMap :=
  m.map (fun p => (p.1, { p.2 with migrationRisk := calculateMigrationRisk p.2 }))

/-- The value `performASTAnalysis` resolves with.  `dependencyGraph` is
initialized empty and never written. -/
structure ASTAnalysisResult where
  packageUsage : PkgMap
  codeMetrics : CodeMetrics
  dependencyGraph : List (String × List String)
deriving DecidableEq, Repr

/-- `performASTAnalysis(sourceFiles, dependencies)` together with the
sequence of `console.error` diagnostics it printed. -/
def performASTAnalysis (sourceFiles : List SourceFile) (dependencies : Deps) :
    ASTAnalysisResult × List String :=
  let r := analyzeAll dependencies sourceFiles
  ({ packageUsage := applyRisk r.1.packageUsage,
     codeMetrics := r.1.codeMetrics,
     dependencyGraph := [] }, r.2)

/-! ## Dictionary lemmas -/

theorem find?_key_isSome {α : Type} (m : List (String × α)) (k : String) :
    (m.find? (fun p => p.1 == k)).isSome = true ↔ k ∈ m.map Prod.fst := by
  induction m with
  | nil => simp [List.find?]
  | cons p m ih =>
    by_cases h : p.1 = k
    · simp [List.find?_cons, h]
    · have hb : (p.1 == k) = false := by simp [h]
      simp [List.find?_cons, hb, ih, h, Ne.symm h]

theorem lookupStr_isSome {α : Type} (m : List (String × α)) (k : String) :
    (lookupStr m k).isSome = true ↔ k ∈ m.map Prod.fst := by
  rw [← find?_key_isSome]
  simp [lookupStr]

theorem lookupStr_eq_some_iff {α : Type} (m : List (String × α)) (k : String) (v : α) :
    lookupStr m k = some v ↔ m.find? (fun p => p.1 == k) = some (k, v) := by
  unfold lookupStr
  rcases hf : m.find? (fun p => p.1 == k) with _ | q
  · rw [hf]; simp
  · rw [hf]
    have hq := List.find?_some hf
    have hk : q.1 = k := by simpa using hq
    obtain ⟨a, b⟩ := q
    simp only at hk
    subst hk
    simp

theorem mem_of_lookupStr_eq_some {α : Type} {m : List (String × α)} {k : String} {v : α}
    (h : lookupStr m k = some v) : (k, v) ∈ m :=
  List.mem_of_find?_eq_some ((lookupStr_eq_some_iff m k v).mp h)

theorem mem_keys_of_lookupStr {α : Type} {m : List (String × α)} {k : String} {v : α}
    (h : lookupStr m k = some v) : k ∈ m.map Prod.fst := by
  rw [← lookupStr_isSome, h]
  rfl

theorem lookupStr_eq_some_of_mem_keys {α : Type} {m : List (String × α)} {k : String}
    (h : k ∈ m.map Prod.fst) : ∃ v, lookupStr m k = some v := by
  have hs := (lookupStr_isSome m k).mpr h
  rcases hv : lookupStr m k with _ | v
  · rw [hv] at hs; simp at hs
  · exact ⟨v, rfl⟩

theorem mem_depKeys_of_depTruthy {deps : Deps} {k : String}
    (h : depTruthy deps k = true) : k ∈ deps.map Prod.fst := by
  unfold depTruthy at h
  rcases hv : lookupStr deps k with _ | v
  · rw [hv] at h; simp at h
  · exact mem_keys_of_lookupStr hv

theorem mem_depKeys_of_fuzzyMatch {idf pkg : String} {deps : Deps}
    (h : fuzzyMatch idf deps = some pkg) : pkg ∈ deps.map Prod.fst := by
  unfold fuzzyMatch at h
  rcases hf : (deps.map Prod.fst).find? (fun dep =>
      jsToLower dep == jsToLower idf ||
      jsToLower (removeSeparators dep) == jsToLower (removeSeparators idf)) with _ | d
  · rw [hf] at h; simp at h
  · rw [hf] at h
    have h' : (if d == "" then none else some d) = some pkg := h
    by_cases hd : (d == "") = true
    · rw [if_pos hd] at h'; cases h'
    · rw [if_neg hd] at h'
      cases h'
      exact List.mem_of_find?_eq_some hf

theorem mem_depKeys_of_findPackage {idf pkg : String} {deps : Deps}
    (h : findPackageFromIdentifier idf deps = some pkg) : pkg ∈ deps.map Prod.fst := by
  unfold findPackageFromIdentifier at h
  rcases hc : lookupStr commonMappings idf with _ | mapped
  · rw [hc] at h
    exact mem_depKeys_of_fuzzyMatch h
  · rw [hc] at h
    have h' : (if depTruthy deps mapped then some mapped else fuzzyMatch idf deps) =
        some pkg := h
    by_cases ht : depTruthy deps mapped = true
    · rw [if_pos ht] at h'
      cases h'
      exact mem_depKeys_of_depTruthy ht
    · rw [if_neg ht] at h'
      exact mem_depKeys_of_fuzzyMatch h'

/-! ## Lookup through the mutation helpers -/

theorem lookupStr_mapUpdate (m : PkgMap) (k : String)
    (f : PackageUsageRecord → PackageUsageRecord) (j : String) :
    lookupStr (m.map (fun p => if p.1 == k then (p.1, f p.2) else p)) j =
      if j = k then (lookupStr m k).map f else lookupStr m j := by
  induction m with
  | nil => by_cases h : j = k <;> simp [lookupStr, List.find?, h]
  | cons p m ih =>
    by_cases hpk : p.1 = k <;> by_cases hpj : p.1 = j <;> by_cases hjk : j = k <;>
      simp_all [lookupStr, List.find?_cons]

theorem lookupStr_append {α : Type} (m m' : List (String × α)) (j : String) :
    lookupStr (m ++ m') j = ((lookupStr m j).or (lookupStr m' j)) := by
  unfold lookupStr
  rw [List.find?_append]
  rcases hf : m.find? (fun p => p.1 == j) with _ | q <;> rw [hf] <;> simp [Option.or]

theorem lookupStr_updatePkg (m : PkgMap) (k : String)
    (f : PackageUsageRecord → PackageUsageRecord) (j : String) :
    lookupStr (updatePkg m k f) j =
      if j = k then some (f ((lookupStr m k).getD emptyRecord)) else lookupStr m j := by
  unfold updatePkg
  by_cases hs : (m.find? (fun p => p.1 == k)).isSome = true
  · rw [if_pos hs, lookupStr_mapUpdate]
    by_cases hjk : j = k
    · subst hjk
      obtain ⟨v, hv⟩ := lookupStr_eq_some_of_mem_keys ((find?_key_isSome m j).mp hs)
      simp [hv]
    · simp [hjk]
  · rw [if_neg hs, lookupStr_append]
    have hnone : lookupStr m k = none := by
      rcases hv : lookupStr m k with _ | v
      · rfl
      · exact absurd ((find?_key_isSome m k).mpr (mem_keys_of_lookupStr hv)) hs
    by_cases hjk : j = k
    · subst hjk
      rw [if_pos rfl, hnone]
      simp [lookupStr, List.find?, Option.or]
    · rw [if_neg hjk]
      have hsingle : lookupStr [(k, f emptyRecord)] j = none := by
        have hb : (k == j) = false := by simp [Ne.symm hjk]
        simp [lookupStr, List.find?, hb]
      rw [hsingle]
      rcases hv : lookupStr m j with _ | v <;> simp [Option.or]

theorem lookupStr_updatePkgIfPresent (m : PkgMap) (k : String)
    (f : PackageUsageRecord → PackageUsageRecord) (j : String) :
    lookupStr (updatePkgIfPresent m k f) j =
      if j = k then (lookupStr m k).map f else lookupStr m j :=
  lookupStr_mapUpdate m k f j

theorem lookupStr_applyRisk (m : PkgMap) (j : String) :
    lookupStr (applyRisk m) j =
      (lookupStr m j).map (fun r => { r with migrationRisk := calculateMigrationRisk r }) := by
  induction m with
  | nil => simp [applyRisk, lookupStr, List.find?]
  | cons p m ih =>
    by_cases hp : p.1 = j
    · have hb : (p.1 == j) = true := by simp [hp]
      simp [applyRisk, lookupStr, List.find?_cons, hb]
    · have hb : (p.1 == j) = false := by simp [hp]
      simp only [applyRisk, List.map_cons, lookupStr, List.find?_cons, hb] at ih ⊢
      exact ih

/-! ## Key preservation -/

theorem map_fst_entryUpdate {β : Type} (m : List (String × β)) (k : String)
    (g : String × β → β) :
    (m.map (fun p => if p.1 == k then (p.1, g p) else p)).map Prod.fst =
      m.map Prod.fst := by
  rw [List.map_map]
  refine List.map_congr_left ?_
  intro p _
  by_cases h : p.1 = k <;> simp [h]

theorem map_fst_updatePkg {m : PkgMap} {k : String}
    (f : PackageUsageRecord → PackageUsageRecord) (h : k ∈ m.map Prod.fst) :
    (updatePkg m k f).map Prod.fst = m.map Prod.fst := by
  unfold updatePkg
  rw [if_pos ((find?_key_isSome m k).mpr h)]
  exact map_fst_entryUpdate m k (fun p => f p.2)

theorem map_fst_updatePkgIfPresent (m : PkgMap) (k : String)
    (f : PackageUsageRecord → PackageUsageRecord) :
    (updatePkgIfPresent m k f).map Prod.fst = m.map Prod.fst :=
  map_fst_entryUpdate m k (fun p => f p.2)

theorem map_fst_flushFileUsage (fileName : String) (tr : Tracker) (m : PkgMap) :
    (flushFileUsage fileName tr m).map Prod.fst = m.map Prod.fst := by
  induction tr generalizing m with
  | nil => rfl
  | cons p tr ih =>
    unfold flushFileUsage at ih ⊢
    rw [List.foldl_cons, ih, map_fst_updatePkgIfPresent]

theorem map_fst_applyRisk (m : PkgMap) :
    (applyRisk m).map Prod.fst = m.map Prod.fst := by
  unfold applyRisk
  rw [List.map_map]
  rfl

theorem mem_map_fst_setPkg (m : PkgMap) (k : String) (r : PackageUsageRecord) (j : String) :
    j ∈ (setPkg m k r).map Prod.fst ↔ j ∈ m.map Prod.fst ∨ j = k := by
  unfold setPkg
  by_cases hs : (m.find? (fun p => p.1 == k)).isSome = true
  · rw [if_pos hs, map_fst_entryUpdate m k (fun _ => r)]
    constructor
    · exact Or.inl
    · intro h
      rcases h with h | h
      · exact h
      · subst h
        exact (find?_key_isSome m j).mp hs
  · rw [if_neg hs]
    simp

theorem initPackageUsage_mem_keys (deps : Deps) (j : String) :
    j ∈ (initPackageUsage deps).map Prod.fst ↔ j ∈ deps.map Prod.fst := by
  unfold initPackageUsage
  suffices h : ∀ (l : Deps) (m : PkgMap),
      (j ∈ (l.foldl (fun m p => setPkg m p.1 emptyRecord) m).map Prod.fst ↔
        j ∈ m.map Prod.fst ∨ j ∈ l.map Prod.fst) by
    rw [h deps []]
    simp
  intro l
  induction l with
  | nil => intro m; simp
  | cons p l ih =>
    intro m
    rw [List.foldl_cons, ih, mem_map_fst_setPkg]
    simp [or_assoc]

/-- All tracked dependency keys are present in a map. -/
def DepKeysIn (deps : Deps) (m : PkgMap) : Prop :=
  ∀ j ∈ deps.map Prod.fst, j ∈ m.map Prod.fst

theorem depKeysIn_initPackageUsage (deps : Deps) :
    DepKeysIn deps (initPackageUsage deps) := by
  intro j hj
  exact (initPackageUsage_mem_keys deps j).mpr hj

theorem map_fst_tsImportStep (deps : Deps) (s : AnalysisState × Tracker) (n : AstNode)
    (h : DepKeysIn deps s.1.packageUsage) :
    ((tsImportStep deps s n).1.packageUsage).map Prod.fst =
      s.1.packageUsage.map Prod.fst := by
  unfold tsImportStep
  rcases n with ⟨specifier, text, line, named⟩ | _ | _ | _ <;> try rfl
  dsimp only
  split
  · split
    · next pkg heq hg =>
      exact map_fst_updatePkg _
        (h pkg (mem_depKeys_of_depTruthy ((Bool.and_eq_true _ _).mp hg).2))
    · rfl
  · rfl

theorem map_fst_tsCallStep (deps : Deps) (s : AnalysisState × Tracker) (n : AstNode)
    (h : DepKeysIn deps s.1.packageUsage) :
    ((tsCallStep deps s n).1.packageUsage).map Prod.fst =
      s.1.packageUsage.map Prod.fst := by
  unfold tsCallStep
  rcases n with _ | ⟨recv, method, text, line⟩ | _ | _ <;> try rfl
  dsimp only
  split
  · next pkg heq =>
    exact map_fst_updatePkg _ (h pkg (mem_depKeys_of_findPackage heq))
  · rfl

theorem map_fst_jsStep (deps : Deps) (s : AnalysisState × Tracker) (n : AstNode)
    (h : DepKeysIn deps s.1.packageUsage) :
    ((jsStep deps s n).1.packageUsage).map Prod.fst =
      s.1.packageUsage.map Prod.fst := by
  unfold jsStep
  rcases n with ⟨specifier, text, line, named⟩ | ⟨recv, method, text, line⟩ | _ | _
  · dsimp only
    split
    · split
      · next pkg heq hg =>
        exact map_fst_updatePkg _
          (h pkg (mem_depKeys_of_depTruthy ((Bool.and_eq_true _ _).mp hg).2))
      · rfl
    · rfl
  · dsimp only
    split
    · next pkg heq =>
      exact map_fst_updatePkg _ (h pkg (mem_depKeys_of_findPackage heq))
    · rfl
  · rfl
  · rfl

theorem map_fst_foldl_step (deps : Deps)
    (step : (AnalysisState × Tracker) → AstNode → (AnalysisState × Tracker))
    (hstep : ∀ s n, DepKeysIn deps s.1.packageUsage →
      ((step s n).1.packageUsage).map Prod.fst = s.1.packageUsage.map Prod.fst)
    (ast : List AstNode) (s : AnalysisState × Tracker)
    (h : DepKeysIn deps s.1.packageUsage) :
    ((ast.foldl step s).1.packageUsage).map Prod.fst =
      s.1.packageUsage.map Prod.fst := by
  induction ast generalizing s with
  | nil => rfl
  | cons n ast ih =>
    rw [List.foldl_cons]
    have hkeys := hstep s n h
    rw [ih (step s n) (fun j hj => hkeys ▸ h j hj), hkeys]

theorem jsInitDeps_eq_self {deps : Deps} {m : PkgMap} (h : DepKeysIn deps m) :
    jsInitDeps deps m = m := by
  unfold jsInitDeps
  have : ∀ l : Deps, (∀ j ∈ l.map Prod.fst, j ∈ m.map Prod.fst) →
      l.foldl (fun m p =>
        if (m.find? (fun q => q.1 == p.1)).isSome then m
        else m ++ [(p.1, emptyRecord)]) m = m := by
    intro l
    induction l with
    | nil => intro _; rfl
    | cons p l ih =>
      intro hl
      rw [List.foldl_cons]
      have hmem : p.1 ∈ m.map Prod.fst := hl p.1 (by simp)
      rw [if_pos ((find?_key_isSome m p.1).mpr hmem)]
      exact ih (fun j hj => hl j (by simp [hj]))
  exact this deps h

theorem map_fst_analyzeTypeScriptFile (deps : Deps) (fileName : String)
    (ast : List AstNode) (st : AnalysisState) (h : DepKeysIn deps st.packageUsage) :
    (analyzeTypeScriptFile deps fileName ast st).packageUsage.map Prod.fst =
      st.packageUsage.map Prod.fst := by
  unfold analyzeTypeScriptFile
  rw [map_fst_flushFileUsage]
  rw [map_fst_foldl_step deps _ (map_fst_tsCallStep deps) ast _ ?_]
  · exact map_fst_foldl_step deps _ (map_fst_tsImportStep deps) ast _ h
  · intro j hj
    rw [map_fst_foldl_step deps _ (map_fst_tsImportStep deps) ast _ h]
    exact h j hj

theorem map_fst_analyzeJavaScriptFile (deps : Deps) (file : SourceFile)
    (ast : List AstNode) (st : AnalysisState) (h : DepKeysIn deps st.packageUsage) :
    (analyzeJavaScriptFile deps file ast st).packageUsage.map Prod.fst =
      st.packageUsage.map Prod.fst := by
  unfold analyzeJavaScriptFile
  rw [jsInitDeps_eq_self h, map_fst_flushFileUsage]
  exact map_fst_foldl_step deps _ (map_fst_jsStep deps) ast _ h

theorem map_fst_analyzeFile (deps : Deps) (st : AnalysisState) (f : SourceFile)
    (h : DepKeysIn deps st.packageUsage) :
    (analyzeFile deps st f).1.packageUsage.map Prod.fst =
      st.packageUsage.map Prod.fst := by
  unfold analyzeFile
  rcases f with ⟨name, ast | msg⟩
  · dsimp only
    by_cases hts : isTsFile name = true
    · rw [if_pos hts]
      exact map_fst_analyzeTypeScriptFile deps name ast st h
    · rw [if_neg hts]
      exact map_fst_analyzeJavaScriptFile deps ⟨name, .ok ast⟩ ast st h
  · rfl

/-! ## Decomposition of the batch loop -/

theorem analyzeFile_snd (deps : Deps) (st : AnalysisState) (f : SourceFile) :
    (analyzeFile deps st f).2 = fileDiag f := by
  unfold analyzeFile fileDiag
  rcases f with ⟨name, ast | msg⟩
  · dsimp only
    by_cases hts : isTsFile name = true
    · rw [if_pos hts]
    · rw [if_neg hts]
  · rfl

theorem analyzeAll_fst (deps : Deps) (files : List SourceFile) :
    (analyzeAll deps files).1 =
      files.foldl (fun st f => (analyzeFile deps st f).1) (initialState deps) := by
  unfold analyzeAll
  generalize initialState deps = st0
  suffices h : ∀ (fs : List SourceFile) (st : AnalysisState) (d : List String),
      (fs.foldl (fun acc f =>
        let r := analyzeFile deps acc.1 f
        (r.1, acc.2 ++ r.2.toList)) (st, d)).1 =
      fs.foldl (fun st f => (analyzeFile deps st f).1) st from h files st0 []
  intro fs
  induction fs with
  | nil => intro st d; rfl
  | cons f fs ih =>
    intro st d
    rw [List.foldl_cons, List.foldl_cons]
    exact ih _ _

theorem analyzeAll_snd (deps : Deps) (files : List SourceFile) :
    (analyzeAll deps files).2 = files.filterMap fileDiag := by
  unfold analyzeAll
  suffices h : ∀ (fs : List SourceFile) (st : AnalysisState) (d : List String),
      (fs.foldl (fun acc f =>
        let r := analyzeFile deps acc.1 f
        (r.1, acc.2 ++ r.2.toList)) (st, d)).2 =
      d ++ fs.filterMap fileDiag by
    rw [h files _ []]
    rfl
  intro fs
  induction fs with
  | nil => intro st d; simp
  | cons f fs ih =>
    intro st d
    rw [List.foldl_cons]
    show (fs.foldl _ ((analyzeFile deps st f).1, d ++ (analyzeFile deps st f).2.toList)).2 = _
    rw [ih _ _, analyzeFile_snd]
    rcases hd : fileDiag f with _ | v <;> simp [hd]

theorem map_fst_analyzeAll (deps : Deps) (files : List SourceFile) :
    (analyzeAll deps files).1.packageUsage.map Prod.fst =
      (initPackageUsage deps).map Prod.fst := by
  rw [analyzeAll_fst]
  suffices h : ∀ (fs : List SourceFile) (st : AnalysisState),
      DepKeysIn deps st.packageUsage →
      (fs.foldl (fun st f => (analyzeFile deps st f).1) st).packageUsage.map Prod.fst =
        st.packageUsage.map Prod.fst from
    h files (initialState deps) (depKeysIn_initPackageUsage deps)
  intro fs
  induction fs with
  | nil => intro st _; rfl
  | cons f fs ih =>
    intro st h
    rw [List.foldl_cons]
    have hkeys := map_fst_analyzeFile deps st f h
    rw [ih _ (fun j hj => hkeys ▸ h j hj), hkeys]

/-! ## The initial map -/

theorem setPkg_of_not_mem {m : PkgMap} {k : String} (r : PackageUsageRecord)
    (h : k ∉ m.map Prod.fst) : setPkg m k r = m ++ [(k, r)] := by
  unfold setPkg
  rw [if_neg (fun hs => h ((find?_key_isSome m k).mp hs))]

theorem map_fst_initPackageUsage {deps : Deps} (h : (deps.map Prod.fst).Nodup) :
    (initPackageUsage deps).map Prod.fst = deps.map Prod.fst := by
  unfold initPackageUsage
  suffices haux : ∀ (l : Deps) (m : PkgMap),
      (m.map Prod.fst ++ l.map Prod.fst).Nodup →
      (l.foldl (fun m p => setPkg m p.1 emptyRecord) m).map Prod.fst =
        m.map Prod.fst ++ l.map Prod.fst by
    simpa using haux deps [] (by simpa using h)
  intro l
  induction l with
  | nil => intro m _; simp
  | cons p l ih =>
    intro m hnd
    rw [List.foldl_cons]
    have hpm : p.1 ∉ m.map Prod.fst := by
      rw [List.nodup_append] at hnd
      intro hmem
      exact hnd.2.2 hmem (by simp)
    rw [setPkg_of_not_mem _ hpm]
    have hnd' : ((m ++ [(p.1, emptyRecord)]).map Prod.fst ++ l.map Prod.fst).Nodup := by
      simpa [List.map_append, List.append_assoc] using hnd
    rw [ih _ hnd']
    simp [List.map_append, List.append_assoc]

theorem initPackageUsage_value {deps : Deps} {p : String × PackageUsageRecord}
    (h : p ∈ initPackageUsage deps) : p.2 = emptyRecord := by
  unfold initPackageUsage at h
  suffices haux : ∀ (l : Deps) (m : PkgMap), (∀ q ∈ m, q.2 = emptyRecord) →
      ∀ q ∈ l.foldl (fun m p => setPkg m p.1 emptyRecord) m, q.2 = emptyRecord from
    haux deps [] (by simp) p h
  intro l
  induction l with
  | nil => intro m hm q hq; exact hm q hq
  | cons x l ih =>
    intro m hm q hq
    rw [List.foldl_cons] at hq
    refine ih _ ?_ q hq
    intro q' hq'
    unfold setPkg at hq'
    by_cases hs : (m.find? (fun pp => pp.1 == x.1)).isSome = true
    · rw [if_pos hs] at hq'
      obtain ⟨q0, hq0, hq0e⟩ := List.mem_map.mp hq'
      by_cases hb : q0.1 = x.1
      · simp only [hb] at hq0e
        rw [if_pos (by simp)] at hq0e
        rw [← hq0e]
      · rw [if_neg (by simpa using hb)] at hq0e
        rw [← hq0e]
        exact hm q0 hq0
    · rw [if_neg hs] at hq'
      rcases List.mem_append.mp hq' with h1 | h1
      · exact hm _ h1
      · simp at h1
        rw [h1]

theorem lookupStr_initPackageUsage {deps : Deps} {k : String}
    (h : k ∈ deps.map Prod.fst) :
    lookupStr (initPackageUsage deps) k = some emptyRecord := by
  obtain ⟨v, hv⟩ :=
    lookupStr_eq_some_of_mem_keys ((initPackageUsage_mem_keys deps k).mpr h)
  have hval : v = emptyRecord := initPackageUsage_value (mem_of_lookupStr_eq_some hv)
  rw [hv, hval]

/-! ## Record invariants through the whole run -/

/-- Every record of the map satisfies `P`. -/
def PkgInv (P : PackageUsageRecord → Prop) (m : PkgMap) : Prop :=
  ∀ p ∈ m, P p.2

theorem pkgInv_updatePkg {P : PackageUsageRecord → Prop} {m : PkgMap} {k : String}
    {f : PackageUsageRecord → PackageUsageRecord}
    (hf : ∀ r, P r → P (f r)) (he : P emptyRecord) (h : PkgInv P m) :
    PkgInv P (updatePkg m k f) := by
  unfold updatePkg
  by_cases hs : (m.find? (fun p => p.1 == k)).isSome = true
  · rw [if_pos hs]
    intro p hp
    obtain ⟨q, hq, hqe⟩ := List.mem_map.mp hp
    by_cases hb : q.1 = k
    · simp only [hb] at hqe
      rw [if_pos (by simp)] at hqe
      rw [← hqe]
      exact hf q.2 (h q hq)
    · rw [if_neg (by simpa using hb)] at hqe
      rw [← hqe]
      exact h q hq
  · rw [if_neg hs]
    intro p hp
    rcases List.mem_append.mp hp with h1 | h1
    · exact h p h1
    · simp at h1
      rw [h1]
      exact hf emptyRecord he

theorem pkgInv_updatePkgIfPresent {P : PackageUsageRecord → Prop} {m : PkgMap} {k : String}
    {f : PackageUsageRecord → PackageUsageRecord}
    (hf : ∀ r, P r → P (f r)) (h : PkgInv P m) :
    PkgInv P (updatePkgIfPresent m k f) := by
  intro p hp
  obtain ⟨q, hq, hqe⟩ := List.mem_map.mp hp
  by_cases hb : q.1 = k
  · simp only [hb] at hqe
    rw [if_pos (by simp)] at hqe
    rw [← hqe]
    exact hf q.2 (h q hq)
  · rw [if_neg (by simpa using hb)] at hqe
    rw [← hqe]
    exact h q hq

theorem pkgInv_flushFileUsage {P : PackageUsageRecord → Prop}
    (hfile : ∀ r e, P r → P { r with fileUsage := r.fileUsage ++ [e] })
    (fileName : String) (tr : Tracker) {m : PkgMap} (h : PkgInv P m) :
    PkgInv P (flushFileUsage fileName tr m) := by
  induction tr generalizing m with
  | nil => exact h
  | cons p tr ih =>
    unfold flushFileUsage
    rw [List.foldl_cons]
    exact ih (pkgInv_updatePkgIfPresent (fun r hr => hfile r _ hr) h)

theorem pkgInv_jsInitDeps {P : PackageUsageRecord → Prop} (he : P emptyRecord)
    (deps : Deps) {m : PkgMap} (h : PkgInv P m) :
    PkgInv P (jsInitDeps deps m) := by
  unfold jsInitDeps
  suffices haux : ∀ (l : Deps) (m : PkgMap), PkgInv P m →
      PkgInv P (l.foldl (fun m p =>
        if (m.find? (fun q => q.1 == p.1)).isSome then m
        else m ++ [(p.1, emptyRecord)]) m) from haux deps m h
  intro l
  induction l with
  | nil => intro m hm; exact hm
  | cons x l ih =>
    intro m hm
    rw [List.foldl_cons]
    refine ih _ ?_
    by_cases hs : (m.find? (fun q => q.1 == x.1)).isSome = true
    · rw [if_pos hs]; exact hm
    · rw [if_neg hs]
      intro p hp
      rcases List.mem_append.mp hp with h1 | h1
      · exact hm p h1
      · simp at h1
        rw [h1]
        exact he

theorem pkgInv_initPackageUsage {P : PackageUsageRecord → Prop} (he : P emptyRecord)
    (deps : Deps) : PkgInv P (initPackageUsage deps) := by
  intro p hp
  rw [initPackageUsage_value hp]
  exact he

theorem pkgInv_tsImportStep {P : PackageUsageRecord → Prop}
    (himp : ∀ r text named, P r → P (recordImport text named r)) (he : P emptyRecord)
    (deps : Deps) (s : AnalysisState × Tracker) (n : AstNode)
    (h : PkgInv P s.1.packageUsage) :
    PkgInv P (tsImportStep deps s n).1.packageUsage := by
  unfold tsImportStep
  rcases n with ⟨specifier, text, line, named⟩ | _ | _ | _ <;> try exact h
  dsimp only
  split
  · split
    · exact pkgInv_updatePkg (himp · text named) he h
    · exact h
  · exact h

theorem pkgInv_tsCallStep {P : PackageUsageRecord → Prop}
    (hcall : ∀ r text method, P r → P (recordCall text method r)) (he : P emptyRecord)
    (deps : Deps) (s : AnalysisState × Tracker) (n : AstNode)
    (h : PkgInv P s.1.packageUsage) :
    PkgInv P (tsCallStep deps s n).1.packageUsage := by
  unfold tsCallStep
  rcases n with _ | ⟨recv, method, text, line⟩ | _ | _ <;> try exact h
  dsimp only
  split
  · exact pkgInv_updatePkg (hcall · text method) he h
  · exact h

theorem pkgInv_jsStep {P : PackageUsageRecord → Prop}
    (himp : ∀ r text named, P r → P (recordImport text named r))
    (hcall : ∀ r text method, P r → P (recordCall text method r)) (he : P emptyRecord)
    (deps : Deps) (s : AnalysisState × Tracker) (n : AstNode)
    (h : PkgInv P s.1.packageUsage) :
    PkgInv P (jsStep deps s n).1.packageUsage := by
  unfold jsStep
  rcases n with ⟨specifier, text, line, named⟩ | ⟨recv, method, text, line⟩ | _ | _
  · dsimp only
    split
    · split
      · exact pkgInv_updatePkg (himp · text named) he h
      · exact h
    · exact h
  · dsimp only
    split
    · exact pkgInv_updatePkg (hcall · text method) he h
    · exact h
  · exact h
  · exact h

theorem pkgInv_foldl {P : PackageUsageRecord → Prop}
    (step : (AnalysisState × Tracker) → AstNode → (AnalysisState × Tracker))
    (hstep : ∀ s n, PkgInv P s.1.packageUsage → PkgInv P (step s n).1.packageUsage)
    (ast : List AstNode) (s : AnalysisState × Tracker)
    (h : PkgInv P s.1.packageUsage) :
    PkgInv P (ast.foldl step s).1.packageUsage := by
  induction ast generalizing s with
  | nil => exact h
  | cons n ast ih =>
    rw [List.foldl_cons]
    exact ih _ (hstep s n h)

theorem pkgInv_analyzeFile {P : PackageUsageRecord → Prop}
    (himp : ∀ r text named, P r → P (recordImport text named r))
    (hcall : ∀ r text method, P r → P (recordCall text method r))
    (hfile : ∀ r e, P r → P { r with fileUsage := r.fileUsage ++ [e] })
    (he : P emptyRecord)
    (deps : Deps) (st : AnalysisState) (f : SourceFile)
    (h : PkgInv P st.packageUsage) :
    PkgInv P (analyzeFile deps st f).1.packageUsage := by
  unfold analyzeFile
  rcases f with ⟨name, ast | msg⟩
  · dsimp only
    by_cases hts : isTsFile name = true
    · rw [if_pos hts]
      unfold analyzeTypeScriptFile
      refine pkgInv_flushFileUsage hfile _ _ ?_
      refine pkgInv_foldl _ (pkgInv_tsCallStep hcall he deps) ast _ ?_
      exact pkgInv_foldl _ (pkgInv_tsImportStep himp he deps) ast _ h
    · rw [if_neg hts]
      unfold analyzeJavaScriptFile
      refine pkgInv_flushFileUsage hfile _ _ ?_
      refine pkgInv_foldl _ (pkgInv_jsStep himp hcall he deps) ast _ ?_
      exact pkgInv_jsInitDeps he deps h
  · exact h

theorem pkgInv_performASTAnalysis {P : PackageUsageRecord → Prop}
    (himp : ∀ r text named, P r → P (recordImport text named r))
    (hcall : ∀ r text method, P r → P (recordCall text method r))
    (hfile : ∀ r e, P r → P { r with fileUsage := r.fileUsage ++ [e] })
    (hrisk : ∀ r, P r → P { r with migrationRisk := calculateMigrationRisk r })
    (he : P emptyRecord)
    (files : List SourceFile) (deps : Deps) :
    PkgInv P (performASTAnalysis files deps).1.packageUsage := by
  unfold performASTAnalysis
  dsimp only
  have hstate : PkgInv P (analyzeAll deps files).1.packageUsage := by
    rw [analyzeAll_fst]
    have haux : ∀ (fs : List SourceFile) (st : AnalysisState), PkgInv P st.packageUsage →
        PkgInv P (fs.foldl (fun st f => (analyzeFile deps st f).1) st).packageUsage := by
      intro fs
      induction fs with
      | nil => intro st h; exact h
      | cons f fs ih =>
        intro st h
        rw [List.foldl_cons]
        exact ih _ (pkgInv_analyzeFile himp hcall hfile he deps st f h)
    exact haux files (initialState deps) (pkgInv_initPackageUsage he deps)
  intro p hp
  obtain ⟨q, hq, hqe⟩ := List.mem_map.mp hp
  rw [← hqe]
  exact hrisk q.2 (hstate q hq)

/-! ## The cyclomatic-complexity accumulator -/

theorem cyclo_tsImportStep (deps : Deps) (s : AnalysisState × Tracker) (n : AstNode) :
    (tsImportStep deps s n).1.codeMetrics.cyclomaticComplexity =
      s.1.codeMetrics.cyclomaticComplexity := by
  unfold tsImportStep
  rcases n with ⟨specifier, text, line, named⟩ | _ | _ | _ <;> try rfl
  dsimp only
  split
  · split <;> rfl
  · rfl

theorem cyclo_tsCallStep (deps : Deps) (s : AnalysisState × Tracker) (n : AstNode) :
    (tsCallStep deps s n).1.codeMetrics.cyclomaticComplexity =
      s.1.codeMetrics.cyclomaticComplexity := by
  unfold tsCallStep
  rcases n with _ | ⟨recv, method, text, line⟩ | _ | _ <;> try rfl
  dsimp only
  split <;> rfl

theorem cyclo_jsStep (deps : Deps) (s : AnalysisState × Tracker) (n : AstNode) :
    (jsStep deps s n).1.codeMetrics.cyclomaticComplexity =
      s.1.codeMetrics.cyclomaticComplexity := by
  unfold jsStep
  rcases n with ⟨specifier, text, line, named⟩ | ⟨recv, method, text, line⟩ | _ | _
  · dsimp only
    split
    · split <;> rfl
    · rfl
  · dsimp only
    split <;> rfl
  · rfl
  · rfl

theorem cyclo_foldl
    (step : (AnalysisState × Tracker) → AstNode → (AnalysisState × Tracker))
    (hstep : ∀ s n, (step s n).1.codeMetrics.cyclomaticComplexity =
      s.1.codeMetrics.cyclomaticComplexity)
    (ast : List AstNode) (s : AnalysisState × Tracker) :
    (ast.foldl step s).1.codeMetrics.cyclomaticComplexity =
      s.1.codeMetrics.cyclomaticComplexity := by
  induction ast generalizing s with
  | nil => rfl
  | cons n ast ih =>
    rw [List.foldl_cons, ih, hstep]

theorem cyclo_analyzeFile (deps : Deps) (st : AnalysisState) (f : SourceFile) :
    (analyzeFile deps st f).1.codeMetrics.cyclomaticComplexity =
      st.codeMetrics.cyclomaticComplexity := by
  unfold analyzeFile
  rcases f with ⟨name, ast | msg⟩
  · dsimp only
    by_cases hts : isTsFile name = true
    · rw [if_pos hts]
      unfold analyzeTypeScriptFile
      dsimp only
      rw [cyclo_foldl _ (cyclo_tsCallStep deps), cyclo_foldl _ (cyclo_tsImportStep deps)]
    · rw [if_neg hts]
      unfold analyzeJavaScriptFile
      dsimp only
      rw [cyclo_foldl _ (cyclo_jsStep deps)]
  · rfl

theorem cyclo_performASTAnalysis (files : List SourceFile) (deps : Deps) :
    (performASTAnalysis files deps).1.codeMetrics.cyclomaticComplexity = 0 := by
  unfold performASTAnalysis
  dsimp only
  have haux : ∀ (fs : List SourceFile) (st : AnalysisState),
      (fs.foldl (fun st f => (analyzeFile deps st f).1) st).codeMetrics.cyclomaticComplexity =
        st.codeMetrics.cyclomaticComplexity := by
    intro fs
    induction fs with
    | nil => intro st; rfl
    | cons f fs ih =>
      intro st
      rw [List.foldl_cons, ih, cyclo_analyzeFile]
  rw [analyzeAll_fst, haux]
  rfl

/-! ## Evaluating the risk scorer -/

theorem calculateMigrationRisk_eq_low {r : PackageUsageRecord}
    (h : riskValue r ≤ 5) : calculateMigrationRisk r = .low := by
  unfold calculateMigrationRisk
  rw [if_pos h]

theorem calculateMigrationRisk_eq_medium {r : PackageUsageRecord}
    (h1 : ¬ riskValue r ≤ 5) (h2 : riskValue r ≤ 15) :
    calculateMigrationRisk r = .medium := by
  unfold calculateMigrationRisk
  rw [if_neg h1, if_pos h2]

theorem calculateMigrationRisk_eq_high {r : PackageUsageRecord}
    (h : ¬ riskValue r ≤ 15) : calculateMigrationRisk r = .high := by
  unfold calculateMigrationRisk
  rw [if_neg (fun h5 => h (le_trans h5 (by norm_num))), if_neg h]

theorem riskValue_set_risk (r : PackageUsageRecord) (x : Risk) :
    riskValue { r with migrationRisk := x } = riskValue r := rfl

theorem calculateMigrationRisk_emptyRecord :
    calculateMigrationRisk emptyRecord = .low := by
  apply calculateMigrationRisk_eq_low
  unfold riskValue emptyRecord
  norm_num

theorem extractPackageName_relative {s : String}
    (h : jsStartsWith s '.' = true ∨ jsStartsWith s '/' = true) :
    extractPackageName s = none := by
  unfold extractPackageName
  rcases h with h | h <;> simp [h]

/-- C7: the package-name resolver maps specifiers starting with `.` or `/` to
null; a scoped `@...` specifier to its first two `/`-segments joined by `/`
(`@babel/core/lib/x` to `@babel/core`), or the single segment unchanged; any
other specifier to its first `/`-segment (`lodash/fp/merge` to `lodash`); it
is total, and an import whose specifier is relative never touches the
`packageUsage` map in either extraction path. -/
theorem extractPackageName_spec :
    (∀ s : String, jsStartsWith s '.' = true ∨ jsStartsWith s '/' = true →
      extractPackageName s = none) ∧
    extractPackageName "@babel/core/lib/x" = some "@babel/core" ∧
    (∀ (s p0 p1 : String) (rest : List String),
      jsStartsWith s '.' = false → jsStartsWith s '/' = false →
      jsStartsWith s '@' = true → jsSplit s '/' = p0 :: p1 :: rest →
      extractPackageName s = some (p0 ++ "/" ++ p1)) ∧
    (∀ s p0 : String,
      jsStartsWith s '.' = false → jsStartsWith s '/' = false →
      jsStartsWith s '@' = true → jsSplit s '/' = [p0] →
      extractPackageName s = some p0) ∧
    (∀ (s p0 : String) (rest : List String),
      jsStartsWith s '.' = false → jsStartsWith s '/' = false →
      jsStartsWith s '@' = false → jsSplit s '/' = p0 :: rest →
      extractPackageName s = some p0) ∧
    extractPackageName "lodash/fp/merge" = some "lodash" ∧
    (∀ (deps : Deps) (s : AnalysisState × Tracker) (specifier text : String)
      (line : Nat) (named : List String),
      jsStartsWith specifier '.' = true ∨ jsStartsWith specifier '/' = true →
      (tsImportStep deps s (.importDecl specifier text line named)).1.packageUsage =
        s.1.packageUsage ∧
      (jsStep deps s (.importDecl specifier text line named)).1.packageUsage =
        s.1.packageUsage) := by
  refine ⟨fun s h => extractPackageName_relative h, by decide, ?_, ?_, ?_, by decide, ?_⟩
  · intro s p0 p1 rest hdot hslash hat hsplit
    unfold extractPackageName
    simp [hdot, hslash, hat, hsplit]
  · intro s p0 hdot hslash hat hsplit
    unfold extractPackageName
    simp [hdot, hslash, hat, hsplit]
  · intro s p0 rest hdot hslash hat hsplit
    unfold extractPackageName
    simp [hdot, hslash, hat, hsplit]
  · intro deps s specifier text line named h
    have hnone : extractPackageName specifier = none := extractPackageName_relative h
    constructor
    · unfold tsImportStep
      dsimp only
      rw [hnone]
    · unfold jsStep
      dsimp only
      rw [hnone]

theorem extractPackageName_spec_witness :
    extractPackageName "./utils" = none ∧
    extractPackageName "@scope" = some "@scope" ∧
    extractPackageName "lodash/fp" = some "lodash" ∧
    (tsImportStep [] (initialState [], ([] : Tracker))
      (.importDecl "./utils" "t" 1 [])).1.packageUsage = [] := by
  refine ⟨extractPackageName_spec.1 "./utils" (Or.inl (by decide)), ?_, ?_, ?_⟩
  · exact extractPackageName_spec.2.2.2.1 "@scope" "@scope"
      (by decide) (by decide) (by decide) (by decide)
  · exact extractPackageName_spec.2.2.2.2.1 "lodash/fp" "lodash" ["fp"]
      (by decide) (by decide) (by decide) (by decide)
  · exact (extractPackageName_spec.2.2.2.2.2.2 [] (initialState [], ([] : Tracker))
      "./utils" "t" 1 [] (Or.inl (by decide))).1

/-- C4: the risk scorer is a pure function of the final record computing
`usageNodes.length * 1 + exportedSymbols.length * 2 + complexityScore * 0.5`
with thresholds at 5 and 15; every record of a returned report carries
exactly the risk the scorer assigns to it; and the stated boundary cases
(risk 5 low, 6 medium, 15 medium, 16 high) hold. -/
theorem risk_scorer_spec :
    (∀ r : PackageUsageRecord,
      (calculateMigrationRisk r = .low ↔ riskValue r ≤ 5) ∧
      (calculateMigrationRisk r = .medium ↔ 5 < riskValue r ∧ riskValue r ≤ 15) ∧
      (calculateMigrationRisk r = .high ↔ 15 < riskValue r)) ∧
    (∀ (files : List SourceFile) (deps : Deps) (pkg : String) (r : PackageUsageRecord),
      (pkg, r) ∈ (performASTAnalysis files deps).1.packageUsage →
      r.migrationRisk = calculateMigrationRisk r) ∧
    calculateMigrationRisk { emptyRecord with usageNodes := List.replicate 5 "u" } = .low ∧
    calculateMigrationRisk { emptyRecord with usageNodes := List.replicate 6 "u" } = .medium ∧
    calculateMigrationRisk { emptyRecord with usageNodes := List.replicate 15 "u" } = .medium ∧
    calculateMigrationRisk { emptyRecord with usageNodes := List.replicate 16 "u" } = .high := by
  refine ⟨?_, ?_, ?_, ?_, ?_, ?_⟩
  · intro r
    rcases le_or_lt (riskValue r) 5 with h1 | h1
    · rw [calculateMigrationRisk_eq_low h1]
      exact ⟨⟨fun _ => h1, fun _ => rfl⟩,
        ⟨fun h => absurd h (by decide), fun h => absurd h.1 (not_lt.mpr h1)⟩,
        ⟨fun h => absurd h (by decide),
         fun h => absurd h (not_lt.mpr (h1.trans (by norm_num)))⟩⟩
    · rcases le_or_lt (riskValue r) 15 with h2 | h2
      · rw [calculateMigrationRisk_eq_medium (not_le.mpr h1) h2]
        exact ⟨⟨fun h => absurd h (by decide), fun h => absurd h (not_le.mpr h1)⟩,
          ⟨fun _ => ⟨h1, h2⟩, fun _ => rfl⟩,
          ⟨fun h => absurd h (by decide), fun h => absurd h (not_lt.mpr h2)⟩⟩
      · rw [calculateMigrationRisk_eq_high (not_le.mpr h2)]
        exact ⟨⟨fun h => absurd h (by decide),
           fun h => absurd h (not_le.mpr (lt_trans (by norm_num) h2))⟩,
          ⟨fun h => absurd h (by decide), fun h => absurd h.2 (not_le.mpr h2)⟩,
          ⟨fun _ => h2, fun _ => rfl⟩⟩
  · intro files deps pkg r hmem
    unfold performASTAnalysis at hmem
    dsimp only at hmem
    obtain ⟨q, hq, hqe⟩ := List.mem_map.mp hmem
    have hr : r = { q.2 with migrationRisk := calculateMigrationRisk q.2 } := by
      have := congrArg Prod.snd hqe
      simpa using this.symm
    rw [hr]
    rfl
  · exact calculateMigrationRisk_eq_low (by norm_num [riskValue, emptyRecord])
  · exact calculateMigrationRisk_eq_medium (by norm_num [riskValue, emptyRecord])
      (by norm_num [riskValue, emptyRecord])
  · exact calculateMigrationRisk_eq_medium (by norm_num [riskValue, emptyRecord])
      (by norm_num [riskValue, emptyRecord])
  · exact calculateMigrationRisk_eq_high (by norm_num [riskValue, emptyRecord])

theorem risk_scorer_spec_witness :
    calculateMigrationRisk emptyRecord = .low ∧
    emptyRecord.migrationRisk = calculateMigrationRisk emptyRecord := by
  constructor
  · exact (risk_scorer_spec.1 emptyRecord).1.mpr (by norm_num [riskValue, emptyRecord])
  · refine risk_scorer_spec.2.1 [] [("a", "1")] "a" emptyRecord ?_
    have hpu : (performASTAnalysis [] [("a", "1")]).1.packageUsage =
        [("a", { emptyRecord with migrationRisk := calculateMigrationRisk emptyRecord })] :=
      rfl
    rw [hpu, calculateMigrationRisk_emptyRecord]
    simp [emptyRecord]

/-- C8: the analysis is deterministic — two runs on identical
`(sourceFiles, dependencies)` input produce identical results in every
component, including every ordered sequence and the diagnostics. -/
theorem analysis_deterministic (files : List SourceFile) (deps : Deps)
    (r1 r2 : ASTAnalysisResult × List String)
    (h1 : r1 = performASTAnalysis files deps)
    (h2 : r2 = performASTAnalysis files deps) :
    r1.1.packageUsage = r2.1.packageUsage ∧
    r1.1.codeMetrics = r2.1.codeMetrics ∧
    r1.1.dependencyGraph = r2.1.dependencyGraph ∧
    r1.2 = r2.2 ∧ r1 = r2 := by
  subst h1
  subst h2
  exact ⟨rfl, rfl, rfl, rfl, rfl⟩

theorem analysis_deterministic_witness :
    (performASTAnalysis [] []).1.packageUsage =
      (performASTAnalysis [] []).1.packageUsage ∧
    (performASTAnalysis [] []).1.codeMetrics =
      (performASTAnalysis [] []).1.codeMetrics ∧
    (performASTAnalysis [] []).1.dependencyGraph =
      (performASTAnalysis [] []).1.dependencyGraph ∧
    (performASTAnalysis [] []).2 = (performASTAnalysis [] []).2 ∧
    performASTAnalysis [] [] = performASTAnalysis [] [] :=
  analysis_deterministic [] [] (performASTAnalysis [] []) (performASTAnalysis [] [])
    rfl rfl

/-- C10: `codeMetrics.cyclomaticComplexity` is 0 on every input — it is
initialized to 0 and no operation increments it — while `totalFunctions`,
`totalClasses` and `totalImports` are genuinely accumulated. -/
theorem cyclomaticComplexity_always_zero :
    (∀ (files : List SourceFile) (deps : Deps),
      (performASTAnalysis files deps).1.codeMetrics.cyclomaticComplexity = 0) ∧
    (performASTAnalysis
        [⟨"a.js", .ok [.funcDecl, .funcDecl, .classDecl,
          .importDecl "lodash" "import x from \x27lodash\x27;" 1 []]⟩]
        [("lodash", "4.17.19")]).1.codeMetrics =
      { totalFunctions := 2, totalClasses := 1, totalImports := 1,
        cyclomaticComplexity := 0 } := by
  refine ⟨cyclo_performASTAnalysis, ?_⟩
  decide

/-- C3: the returned `packageUsage` map contains exactly the keys of the
declared dependency set — a record for every declared dependency, no key
outside it, and an empty dependency set yields an empty map. -/
theorem packageUsage_covers_declared (files : List SourceFile) (deps : Deps)
    (h : (deps.map Prod.fst).Nodup) :
    (performASTAnalysis files deps).1.packageUsage.map Prod.fst = deps.map Prod.fst ∧
    ∀ fs : List SourceFile, (performASTAnalysis fs []).1.packageUsage = [] := by
  constructor
  · unfold performASTAnalysis
    dsimp only
    rw [map_fst_applyRisk, map_fst_analyzeAll, map_fst_initPackageUsage h]
  · intro fs
    have hkeys : (performASTAnalysis fs []).1.packageUsage.map Prod.fst = [] := by
      unfold performASTAnalysis
      dsimp only
      rw [map_fst_applyRisk, map_fst_analyzeAll,
        map_fst_initPackageUsage (by simp : (([] : Deps).map Prod.fst).Nodup)]
      rfl
    exact List.map_eq_nil_iff.mp hkeys

theorem packageUsage_covers_declared_witness :
    (performASTAnalysis [] [("lodash", "4.17.19"), ("react", "18.0.0")]).1.packageUsage.map
      Prod.fst = ["lodash", "react"] :=
  (packageUsage_covers_declared [] [("lodash", "4.17.19"), ("react", "18.0.0")]
    (by decide)).1

/-- C6: a parse failure never aborts the batch — with file 2 failing, the
report equals the report of files 1 and 3 alone (their evidence is complete,
file 2 contributes nothing), and a per-file diagnostic naming file 2 is
emitted instead of a fatal error. -/
theorem parse_failure_isolated (deps : Deps) (f1 f3 : SourceFile)
    (name err : String) :
    (performASTAnalysis [f1, ⟨name, .failed err⟩, f3] deps).1 =
      (performASTAnalysis [f1, f3] deps).1 ∧
    failMessage ⟨name, .failed err⟩ err ∈
      (performASTAnalysis [f1, ⟨name, .failed err⟩, f3] deps).2 := by
  constructor
  · have hfst : (analyzeAll deps [f1, ⟨name, .failed err⟩, f3]).1 =
        (analyzeAll deps [f1, f3]).1 := by
      rw [analyzeAll_fst, analyzeAll_fst]
      simp only [List.foldl_cons, List.foldl_nil]
      rfl
    unfold performASTAnalysis
    dsimp only
    rw [hfst]
  · show failMessage _ err ∈ (analyzeAll deps [f1, ⟨name, .failed err⟩, f3]).2
    rw [analyzeAll_snd, List.mem_filterMap]
    exact ⟨⟨name, .failed err⟩, by simp, rfl⟩

/-- C9: in every record of the returned report `complexityScore` equals
`usageNodes.length` (both start at 0 and only the member-call recorder
touches them, in lockstep), so the risk formula effectively evaluates to
`1.5 * usageNodes.length + 2 * exportedSymbols.length`. -/
theorem complexity_eq_usageNodes_length (files : List SourceFile) (deps : Deps)
    (pkg : String) (r : PackageUsageRecord)
    (h : (pkg, r) ∈ (performASTAnalysis files deps).1.packageUsage) :
    r.complexityScore = r.usageNodes.length ∧
    riskValue r = 3 / 2 * (r.usageNodes.length : ℚ) +
      2 * (r.exportedSymbols.length : ℚ) := by
  have hinv : PkgInv (fun q => q.complexityScore = q.usageNodes.length)
      (performASTAnalysis files deps).1.packageUsage := by
    refine pkgInv_performASTAnalysis ?_ ?_ ?_ ?_ ?_ files deps
    · intro q text named hq
      simpa [recordImport] using hq
    · intro q text method hq
      simp [recordCall, hq]
    · intro q e hq
      simpa using hq
    · intro q hq
      simpa using hq
    · rfl
  have h1 := hinv (pkg, r) h
  refine ⟨h1, ?_⟩
  unfold riskValue
  rw [show ((pkg, r).2.complexityScore : ℚ) = ((pkg, r).2.usageNodes.length : ℚ) from
    congrArg _ h1]
  push_cast
  ring

theorem complexity_eq_usageNodes_length_witness :
    emptyRecord.complexityScore = emptyRecord.usageNodes.length ∧
    riskValue emptyRecord = 3 / 2 * (emptyRecord.usageNodes.length : ℚ) +
      2 * (emptyRecord.exportedSymbols.length : ℚ) := by
  refine complexity_eq_usageNodes_length [] [("a", "1")] "a" emptyRecord ?_
  have hpu : (performASTAnalysis [] [("a", "1")]).1.packageUsage =
      [("a", { emptyRecord with migrationRisk := calculateMigrationRisk emptyRecord })] :=
    rfl
  rw [hpu, calculateMigrationRisk_emptyRecord]
  simp [emptyRecord]

/-- C2: evaluating the analyzer on the end-to-end scenario — dependencies
`lodash@4.17.19` and one JavaScript file reading
`const _ = require('lodash'); _.merge(a, b); _.get(a, 'x');`, whose babel
tree contains no ImportDeclaration (the require is a variable declaration)
and two member-access calls on `_` — yields usageNodes with 2 entries,
exportedSymbols `merge` and `get`, complexityScore 2 and migrationRisk
`medium` (risk 7), but importNodes is EMPTY: the require declaration is
never recorded as an import, contradicting the claim's expected 1 entry. -/
theorem require_scenario_eval :
    lookupStr (performASTAnalysis
        [⟨"app.js", .ok [
          .callMember (.ident "_") "merge" "_.merge(a, b)" 1,
          .callMember (.ident "_") "get" "_.get(a, \x27x\x27)" 1]⟩]
        [("lodash", "4.17.19")]).1.packageUsage "lodash" =
      some { importNodes := [], usageNodes := ["_.merge(a, b)", "_.get(a, \x27x\x27)"],
             exportedSymbols := ["merge", "get"], complexityScore := 2,
             migrationRisk := .medium, fileUsage := [] } := by
  have hstate : (analyzeAll [("lodash", "4.17.19")]
      [⟨"app.js", .ok [
        .callMember (.ident "_") "merge" "_.merge(a, b)" 1,
        .callMember (.ident "_") "get" "_.get(a, \x27x\x27)" 1]⟩]).1.packageUsage =
      [("lodash",
        { importNodes := [], usageNodes := ["_.merge(a, b)", "_.get(a, \x27x\x27)"],
          exportedSymbols := ["merge", "get"], complexityScore := 2,
          migrationRisk := .low, fileUsage := [] })] := by decide
  unfold performASTAnalysis
  dsimp only
  rw [hstate, lookupStr_applyRisk]
  have hm : calculateMigrationRisk
      ({ importNodes := [], usageNodes := ["_.merge(a, b)", "_.get(a, \x27x\x27)"],
         exportedSymbols := ["merge", "get"], complexityScore := 2,
         migrationRisk := Risk.low, fileUsage := [] } : PackageUsageRecord) = .medium :=
    calculateMigrationRisk_eq_medium (by norm_num [riskValue]) (by norm_num [riskValue])
  simp [lookupStr, List.find?, hm]

/-- C1 counterexample: the extractor consults no import-binding table and the
TypeScript path does not walk to the base identifier.  A JavaScript file
that binds `foo` to `lodash` by an import and then calls `foo.merge(a, b)`
yields NO
usage for lodash (usageNodes empty, complexityScore 0, no `merge` symbol),
although the claim's import-binding table would resolve `foo`; and a
TypeScript file calling `_.fp.merge(a, b)` yields nothing either, because the
receiver is resolved by its full text `_.fp`, not its walked base `_`. -/
theorem import_binding_ignored_cex :
    (lookupStr (performASTAnalysis
        [⟨"a.js", .ok [
          .importDecl "lodash" "import foo from \x27lodash\x27;" 1 [],
          .callMember (.ident "foo") "merge" "foo.merge(a, b)" 2]⟩]
        [("lodash", "4.17.19")]).1.packageUsage "lodash" =
      some { importNodes := ["import foo from \x27lodash\x27;"], usageNodes := [],
             exportedSymbols := [], complexityScore := 0, migrationRisk := .low,
             fileUsage := [] }) ∧
    (lookupStr (performASTAnalysis
        [⟨"b.ts", .ok [
          .callMember (.member (.ident "_") "fp") "merge" "_.fp.merge(a, b)" 1]⟩]
        [("lodash", "4.17.19")]).1.packageUsage "lodash" =
      some emptyRecord) := by
  constructor
  · have hstate : (analyzeAll [("lodash", "4.17.19")]
        [⟨"a.js", .ok [
          .importDecl "lodash" "import foo from \x27lodash\x27;" 1 [],
          .callMember (.ident "foo") "merge" "foo.merge(a, b)" 2]⟩]).1.packageUsage =
        [("lodash",
          { importNodes := ["import foo from \x27lodash\x27;"], usageNodes := [],
            exportedSymbols := [], complexityScore := 0, migrationRisk := .low,
            fileUsage := [] })] := by decide
    unfold performASTAnalysis
    dsimp only
    rw [hstate, lookupStr_applyRisk]
    have hlow : calculateMigrationRisk
        ({ importNodes := ["import foo from \x27lodash\x27;"], usageNodes := [],
           exportedSymbols := [], complexityScore := 0, migrationRisk := .low,
           fileUsage := [] } : PackageUsageRecord) = .low :=
      calculateMigrationRisk_eq_low (by norm_num [riskValue])
    simp [lookupStr, List.find?, hlow]
  · have hstate : (analyzeAll [("lodash", "4.17.19")]
        [⟨"b.ts", .ok [
          .callMember (.member (.ident "_") "fp") "merge" "_.fp.merge(a, b)" 1]⟩]).1.packageUsage =
        [("lodash", emptyRecord)] := by decide
    unfold performASTAnalysis
    dsimp only
    rw [hstate, lookupStr_applyRisk]
    have hl0 : calculateMigrationRisk
        ({ importNodes := [], usageNodes := [], exportedSymbols := [],
           complexityScore := 0, migrationRisk := Risk.low,
           fileUsage := [] } : PackageUsageRecord) = .low :=
      calculateMigrationRisk_eq_low (by norm_num [riskValue])
    simp [lookupStr, List.find?, emptyRecord, hl0]

/-- C1 amended: for a member-access call the JavaScript path resolves the
receiver's walked base identifier (`getObjectName`) and the TypeScript path
the receiver's full text (`exprText`), in both cases solely through the
alias/fuzzy mapper `findPackageFromIdentifier` — no import-binding table
exists; on success the full call text is recorded as a usage snippet, the
complexity accumulator is incremented by 1 and the method name is added to
the touched symbols; on failure nothing changes. -/
theorem member_call_resolution (deps : Deps) (recv : Expr) (method text : String)
    (line : Nat) (pkg : String) :
    (findPackageFromIdentifier (getObjectName recv) deps = some pkg →
      lookupStr (performASTAnalysis
          [⟨"f.js", .ok [.callMember recv method text line]⟩] deps).1.packageUsage pkg =
        some { importNodes := [], usageNodes := [text], exportedSymbols := [method],
               complexityScore := 1, migrationRisk := .low, fileUsage := [] }) ∧
    (findPackageFromIdentifier (getObjectName recv) deps = none →
      (performASTAnalysis [⟨"f.js", .ok [.callMember recv method text line]⟩]
          deps).1.packageUsage =
        (performASTAnalysis ([] : List SourceFile) deps).1.packageUsage) ∧
    (findPackageFromIdentifier (exprText recv) deps = some pkg →
      lookupStr (performASTAnalysis
          [⟨"f.ts", .ok [.callMember recv method text line]⟩] deps).1.packageUsage pkg =
        some { importNodes := [], usageNodes := [text], exportedSymbols := [method],
               complexityScore := 1, migrationRisk := .low,
               fileUsage := [{ fileName := "f.ts", importStatements := [],
                               usageExamples := [text], lineNumbers := [line] }] }) := by
  refine ⟨?_, ?_, ?_⟩
  · intro hres
    have hmem : pkg ∈ deps.map Prod.fst := mem_depKeys_of_findPackage hres
    have hfile : (analyzeFile deps (initialState deps)
        ⟨"f.js", .ok [.callMember recv method text line]⟩).1 =
        analyzeJavaScriptFile deps ⟨"f.js", .ok [.callMember recv method text line]⟩
          [.callMember recv method text line] (initialState deps) := by
      unfold analyzeFile
      dsimp only
      rw [if_neg (by decide : ¬ isTsFile "f.js" = true)]
    have hjs : (analyzeJavaScriptFile deps ⟨"f.js", .ok [.callMember recv method text line]⟩
        [.callMember recv method text line] (initialState deps)).packageUsage =
        updatePkg (initPackageUsage deps) pkg (recordCall text method) := by
      unfold analyzeJavaScriptFile
      dsimp only
      rw [List.foldl_cons, List.foldl_nil]
      unfold jsStep
      dsimp only
      rw [hres]
      show updatePkg (jsInitDeps deps (initPackageUsage deps)) pkg (recordCall text method) = _
      rw [jsInitDeps_eq_self (depKeysIn_initPackageUsage deps)]
    unfold performASTAnalysis
    dsimp only
    rw [analyzeAll_fst, List.foldl_cons, List.foldl_nil, hfile, hjs]
    rw [lookupStr_applyRisk, lookupStr_updatePkg, if_pos rfl,
      lookupStr_initPackageUsage hmem]
    show Option.map _ (some (recordCall text method emptyRecord)) = _
    have hrec : recordCall text method emptyRecord =
        { importNodes := [], usageNodes := [text], exportedSymbols := [method],
          complexityScore := 1, migrationRisk := Risk.low, fileUsage := [] } := rfl
    rw [hrec]
    have hlow : calculateMigrationRisk
        ({ importNodes := [], usageNodes := [text], exportedSymbols := [method],
           complexityScore := 1, migrationRisk := Risk.low,
           fileUsage := [] } : PackageUsageRecord) = .low := by
      apply calculateMigrationRisk_eq_low
      simp [riskValue]
      norm_num
    simp [hlow]
  · intro hres
    have hfile : (analyzeFile deps (initialState deps)
        ⟨"f.js", .ok [.callMember recv method text line]⟩).1 =
        analyzeJavaScriptFile deps ⟨"f.js", .ok [.callMember recv method text line]⟩
          [.callMember recv method text line] (initialState deps) := by
      unfold analyzeFile
      dsimp only
      rw [if_neg (by decide : ¬ isTsFile "f.js" = true)]
    have hjs0 : (analyzeJavaScriptFile deps ⟨"f.js", .ok [.callMember recv method text line]⟩
        [.callMember recv method text line] (initialState deps)).packageUsage =
        initPackageUsage deps := by
      unfold analyzeJavaScriptFile
      dsimp only
      rw [List.foldl_cons, List.foldl_nil]
      unfold jsStep
      dsimp only
      rw [hres]
      show jsInitDeps deps (initPackageUsage deps) = _
      rw [jsInitDeps_eq_self (depKeysIn_initPackageUsage deps)]
    unfold performASTAnalysis
    dsimp only
    rw [analyzeAll_fst, analyzeAll_fst]
    simp only [List.foldl_cons, List.foldl_nil]
    rw [hfile, hjs0]
    rfl
  · intro hres
    have hmem : pkg ∈ deps.map Prod.fst := mem_depKeys_of_findPackage hres
    have hfile : (analyzeFile deps (initialState deps)
        ⟨"f.ts", .ok [.callMember recv method text line]⟩).1 =
        analyzeTypeScriptFile deps "f.ts" [.callMember recv method text line]
          (initialState deps) := by
      unfold analyzeFile
      dsimp only
      rw [if_pos (by decide : isTsFile "f.ts" = true)]
    have hts : (analyzeTypeScriptFile deps "f.ts" [.callMember recv method text line]
        (initialState deps)).packageUsage =
        updatePkgIfPresent (updatePkg (initPackageUsage deps) pkg (recordCall text method))
          pkg (fun r => { r with fileUsage := r.fileUsage ++
            [{ fileName := "f.ts", importStatements := [],
               usageExamples := [text], lineNumbers := [line] }] }) := by
      unfold analyzeTypeScriptFile
      dsimp only
      simp only [List.foldl_cons, List.foldl_nil]
      unfold tsImportStep
      dsimp only
      unfold tsCallStep
      dsimp only
      rw [hres]
      rfl
    unfold performASTAnalysis
    dsimp only
    rw [analyzeAll_fst, List.foldl_cons, List.foldl_nil, hfile, hts]
    rw [lookupStr_applyRisk, lookupStr_updatePkgIfPresent, if_pos rfl,
      lookupStr_updatePkg, if_pos rfl, lookupStr_initPackageUsage hmem]
    show Option.map _ (Option.map _ (some (recordCall text method emptyRecord))) = _
    have hrec : recordCall text method emptyRecord =
        { importNodes := [], usageNodes := [text], exportedSymbols := [method],
          complexityScore := 1, migrationRisk := Risk.low, fileUsage := [] } := rfl
    rw [hrec]
    have hlow : calculateMigrationRisk
        ({ importNodes := [], usageNodes := [text], exportedSymbols := [method],
           complexityScore := 1, migrationRisk := Risk.low,
           fileUsage := [{ fileName := "f.ts", importStatements := [],
                           usageExamples := [text], lineNumbers := [line] }] } :
          PackageUsageRecord) = .low := by
      apply calculateMigrationRisk_eq_low
      simp [riskValue]
      norm_num
    simp [hlow]

theorem member_call_resolution_witness :
    lookupStr (performASTAnalysis
        [⟨"f.js", .ok [.callMember (.ident "_") "merge" "m" 3]⟩]
        [("lodash", "4.17.19")]).1.packageUsage "lodash" =
      some { importNodes := [], usageNodes := ["m"], exportedSymbols := ["merge"],
             complexityScore := 1, migrationRisk := .low, fileUsage := [] } :=
  (member_call_resolution [("lodash", "4.17.19")] (.ident "_") "merge" "m" 3
    "lodash").1 (by decide)

theorem recordCall_nodup {r : PackageUsageRecord} (text method : String)
    (h : r.exportedSymbols.Nodup) : (recordCall text method r).exportedSymbols.Nodup := by
  unfold recordCall
  dsimp only
  by_cases hc : r.exportedSymbols.contains method = true
  · rw [if_pos hc]
    exact h
  · rw [if_neg hc]
    have hnm : method ∉ r.exportedSymbols := fun hm => hc (List.elem_iff.mpr hm)
    rw [List.nodup_append]
    refine ⟨h, List.nodup_singleton method, ?_⟩
    intro a ha hb
    simp at hb
    subst hb
    exact hnm ha

/-- C5 counterexample: `exportedSymbols` is not duplicate-free — importing
the same named binding `merge` from `lodash` in two import declarations
pushes it twice, so the returned record's symbol list is
`["merge", "merge"]`, which has duplicates. -/
theorem exportedSymbols_duplicate_cex :
    (lookupStr (performASTAnalysis
        [⟨"a.js", .ok [
          .importDecl "lodash" "import \x7b merge \x7d from \x27lodash\x27;" 1 ["merge"],
          .importDecl "lodash" "import \x7b merge \x7d from \x27lodash\x27;" 2 ["merge"]]⟩]
        [("lodash", "4.17.19")]).1.packageUsage "lodash").map
      PackageUsageRecord.exportedSymbols = some ["merge", "merge"] ∧
    ¬ (["merge", "merge"] : List String).Nodup := by
  constructor
  · have hstate : (analyzeAll [("lodash", "4.17.19")]
        [⟨"a.js", .ok [
          .importDecl "lodash" "import \x7b merge \x7d from \x27lodash\x27;" 1 ["merge"],
          .importDecl "lodash" "import \x7b merge \x7d from \x27lodash\x27;" 2 ["merge"]]⟩]).1.packageUsage =
        [("lodash",
          { importNodes := ["import \x7b merge \x7d from \x27lodash\x27;",
                            "import \x7b merge \x7d from \x27lodash\x27;"],
            usageNodes := [], exportedSymbols := ["merge", "merge"],
            complexityScore := 0, migrationRisk := .low, fileUsage := [] })] := by decide
    unfold performASTAnalysis
    dsimp only
    rw [hstate, lookupStr_applyRisk]
    simp [lookupStr, List.find?]
  · decide

/-- C5 amended: only the member-call recorder deduplicates — a call step
(either path) never introduces a duplicate into a record's
`exportedSymbols` (the method name is added only when absent), whereas
named-import symbols are appended unconditionally and can duplicate. -/
theorem call_step_symbols_nodup (deps : Deps) (s : AnalysisState × Tracker)
    (recv : Expr) (method text : String) (line : Nat) (pkg : String)
    (h : ∀ r, lookupStr s.1.packageUsage pkg = some r → r.exportedSymbols.Nodup) :
    (∀ r', lookupStr (jsStep deps s
        (.callMember recv method text line)).1.packageUsage pkg = some r' →
      r'.exportedSymbols.Nodup) ∧
    (∀ r', lookupStr (tsCallStep deps s
        (.callMember recv method text line)).1.packageUsage pkg = some r' →
      r'.exportedSymbols.Nodup) := by
  constructor
  · intro r' hr'
    unfold jsStep at hr'
    dsimp only at hr'
    rcases hfind : findPackageFromIdentifier (getObjectName recv) deps with _ | q
    · rw [hfind] at hr'
      exact h r' hr'
    · rw [hfind] at hr'
      dsimp only at hr'
      rw [lookupStr_updatePkg] at hr'
      by_cases hpq : pkg = q
      · rw [if_pos hpq] at hr'
        cases hr'
        apply recordCall_nodup
        rcases hl : lookupStr s.1.packageUsage q with _ | r0
        · simp [emptyRecord]
        · exact h r0 (hpq ▸ hl)
      · rw [if_neg hpq] at hr'
        exact h r' hr'
  · intro r' hr'
    unfold tsCallStep at hr'
    dsimp only at hr'
    rcases hfind : findPackageFromIdentifier (exprText recv) deps with _ | q
    · rw [hfind] at hr'
      exact h r' hr'
    · rw [hfind] at hr'
      dsimp only at hr'
      rw [lookupStr_updatePkg] at hr'
      by_cases hpq : pkg = q
      · rw [if_pos hpq] at hr'
        cases hr'
        apply recordCall_nodup
        rcases hl : lookupStr s.1.packageUsage q with _ | r0
        · simp [emptyRecord]
        · exact h r0 (hpq ▸ hl)
      · rw [if_neg hpq] at hr'
        exact h r' hr'

theorem call_step_symbols_nodup_witness :
    ({ importNodes := [], usageNodes := ["m"], exportedSymbols := ["merge"],
       complexityScore := 1, migrationRisk := Risk.low,
       fileUsage := [] } : PackageUsageRecord).exportedSymbols.Nodup := by
  refine (call_step_symbols_nodup [("lodash", "4.17.19")]
    (initialState [("lodash", "4.17.19")], ([] : Tracker)) (.ident "_") "merge" "m" 1
    "lodash" ?_).1
    { importNodes := [], usageNodes := ["m"], exportedSymbols := ["merge"],
      complexityScore := 1, migrationRisk := Risk.low, fileUsage := [] }
    (by decide)
  intro r hr
  have hr' : r = emptyRecord := by
    have hl : lookupStr (initialState [("lodash", "4.17.19")], ([] : Tracker)).1.packageUsage
        "lodash" = some emptyRecord := by decide
    rw [hl] at hr
    exact (Option.some.injEq _ _ |>.mp hr).symm
  rw [hr']
  decide

end DependencyShield
